import Mathlib

/-!
# Resume-parsing matching core: shallow embedding and verification

The repository is a Job → Candidates matching MVP.  The part of it that is
present as code is the frontend (`src/fe`), whose `src/types/api.ts` fixes the
wire shapes (`RuleTrace`, `MatchResult`, `MatchResponse`, `ShortlistResponse`);
the backend matching core (`be/rules.py`, the matching pipeline and the
shortlist persistence, listed in the repository README) is not part of the
sources, so the core operations below are modelled from the words of the
specification, as flagged in each doc comment.

Floating-point scores of the source are modelled as exact rationals: the type
`Qv` stores a numerator and a denominator minus one (so the denominator is
positive by construction).  Order and equivalence on `Qv` are defined through
the cast into `ℚ`, while their `Decidable` instances are routed through integer
cross-multiplication so that concrete evaluations reduce in the kernel.
-/

/-- Exact rational scalar: numerator `n` over denominator `d1 + 1`. -/
structure Qv where
  n : Int
  d1 : Nat
deriving DecidableEq, Repr

namespace Qv

/-- The (positive) denominator, as an integer. -/
def den (q : Qv) : Int := (q.d1 : Int) + 1

theorem den_pos (q : Qv) : 0 < q.den := by
  unfold den; omega

/-- Embed an integer. -/
def ofInt (i : Int) : Qv := ⟨i, 0⟩

/-- Value of a `Qv` as a rational number. -/
def toRat (q : Qv) : ℚ := (q.n : ℚ) / (q.den : ℚ)

theorem den_cast_pos (q : Qv) : (0 : ℚ) < (q.den : ℚ) := by
  exact_mod_cast q.den_pos

/-- Addition, by cross multiplication. -/
def add (a b : Qv) : Qv := ⟨a.n * b.den + b.n * a.den, a.d1 * b.d1 + a.d1 + b.d1⟩

/-- Multiplication. -/
def mul (a b : Qv) : Qv := ⟨a.n * b.n, a.d1 * b.d1 + a.d1 + b.d1⟩

theorem den_add (a b : Qv) : (add a b).den = a.den * b.den := by
  simp only [den, add]; push_cast; ring

theorem den_mul (a b : Qv) : (mul a b).den = a.den * b.den := by
  simp only [den, mul]; push_cast; ring

theorem toRat_add (a b : Qv) : (add a b).toRat = a.toRat + b.toRat := by
  have ha := a.den_cast_pos
  have hb := b.den_cast_pos
  have hn : (add a b).n = a.n * b.den + b.n * a.den := rfl
  have hd : (add a b).den = a.den * b.den := den_add a b
  simp only [toRat, hn, hd]
  push_cast
  field_simp

theorem toRat_mul (a b : Qv) : (mul a b).toRat = a.toRat * b.toRat := by
  have ha := a.den_cast_pos
  have hb := b.den_cast_pos
  have hn : (mul a b).n = a.n * b.n := rfl
  have hd : (mul a b).den = a.den * b.den := den_mul a b
  simp only [toRat, hn, hd]
  push_cast
  field_simp

/-- Order: `a ≤ b` as rational values. -/
def le (a b : Qv) : Prop := a.toRat ≤ b.toRat

/-- Strict order as rational values. -/
def lt (a b : Qv) : Prop := a.toRat < b.toRat

/-- Equivalence: equal rational values (representations may differ). -/
def eqv (a b : Qv) : Prop := a.toRat = b.toRat

theorem le_iff_cross (a b : Qv) : le a b ↔ a.n * b.den ≤ b.n * a.den := by
  have ha := a.den_cast_pos
  have hb := b.den_cast_pos
  rw [le, toRat, toRat, div_le_div_iff₀ ha hb]
  constructor
  · intro h; exact_mod_cast h
  · intro h; exact_mod_cast h

theorem lt_iff_cross (a b : Qv) : lt a b ↔ a.n * b.den < b.n * a.den := by
  have ha := a.den_cast_pos
  have hb := b.den_cast_pos
  rw [lt, toRat, toRat, div_lt_div_iff₀ ha hb]
  constructor
  · intro h; exact_mod_cast h
  · intro h; exact_mod_cast h

theorem eqv_iff_cross (a b : Qv) : eqv a b ↔ a.n * b.den = b.n * a.den := by
  have ha := a.den_cast_pos
  have hb := b.den_cast_pos
  rw [eqv, toRat, toRat, div_eq_div_iff (ne_of_gt ha) (ne_of_gt hb)]
  constructor
  · intro h; exact_mod_cast h
  · intro h; exact_mod_cast h

instance : DecidableRel le := fun a b =>
  decidable_of_iff _ (le_iff_cross a b).symm

instance : DecidableRel lt := fun a b =>
  decidable_of_iff _ (lt_iff_cross a b).symm

instance decEqv : ∀ a b : Qv, Decidable (eqv a b) := fun a b =>
  decidable_of_iff _ (eqv_iff_cross a b).symm

/-- Minimum of two values (used for capped bonuses). -/
def qmin (a b : Qv) : Qv := if le a b then a else b

end Qv

/-- Sum of a list of values. -/
def qsum (l : List Qv) : Qv := l.foldr Qv.add (Qv.ofInt 0)

example : Qv.le (Qv.ofInt 3) (Qv.ofInt 5) := by decide
example : Qv.eqv (Qv.add ⟨1, 1⟩ ⟨1, 1⟩) (Qv.ofInt 1) := by decide
example : Qv.lt ⟨41, 49⟩ ⟨9, 9⟩ := by decide
example : Qv.mul ⟨41, 49⟩ (Qv.ofInt 100) = ⟨4100, 49⟩ := by decide

/-! ## Wire shapes, from `src/fe/src/types/api.ts` -/

/-- Field names of the `RuleTrace` interface (api.ts lines 77-84). -/
def ruleTraceFields : List String :=
  ["rule_id", "name", "status", "reason", "evidence", "score_delta"]

/-- Field names of the `MatchResult` interface (api.ts lines 86-92): the shape
of one shortlist entry as served over the wire. -/
def matchResultFields : List String :=
  ["candidate_id", "rank", "retrieval_similarity", "final_score", "rule_trace"]

/-- Field names of the `MatchResponse` interface (api.ts lines 103-113): the
`runMatch` response enclosing the entries. -/
def matchResponseFields : List String :=
  ["status", "job_id", "top_n", "matches", "embedding_model_version",
   "taxonomy_version", "rules_version", "computed_at", "message"]

/-- Field names of the `ShortlistResponse` interface (api.ts lines 115-124):
the `getShortlist` response enclosing the entries. -/
def shortlistResponseFields : List String :=
  ["job_id", "top_n", "matches", "embedding_model_version",
   "taxonomy_version", "rules_version", "computed_at", "is_stale"]

/-- The eleven fields that the wire-contract sentence of the specification lists
for a shortlist entry. -/
def specEntryFields : List String :=
  ["job_id", "candidate_id", "rank", "retrieval_similarity", "final_score",
   "rule_trace", "embedding_model_version", "taxonomy_version",
   "rules_version", "computed_at", "is_stale"]

/-! ## Data model

`RuleEvidence`, `RuleTrace` and the entry fields of `MatchResult` are
translated from `src/fe/src/types/api.ts`; the profile and configuration
types, which have no code under the sources, are modelled from the
specification (§3 DATA MODEL). -/

/-- Verdict status, from the `status` union of `RuleTrace` in api.ts. -/
inductive Status where
  | PASS
  | FAIL
  | SKIP
deriving DecidableEq, Repr

/-- Evidence attached to a verdict, from `RuleEvidence` in api.ts:
source identifier, literal text snippet, optional character span
(the api.ts span fields are `start` and `end`; `end` is a Lean keyword,
so the pair holds them positionally). -/
structure RuleEvidence where
  source : String
  text : String
  span : Option (Nat × Nat)
deriving DecidableEq, Repr

/-- One rule verdict of the audit trace, from `RuleTrace` in api.ts. -/
structure RuleTrace where
  rule_id : String
  name : String
  status : Status
  reason : String
  evidence : List RuleEvidence
  score_delta : Qv
deriving DecidableEq, Repr

/-- One shortlist entry, from `MatchResult` in api.ts. -/
structure MatchResult where
  candidate_id : Nat
  rank : Nat
  retrieval_similarity : Qv
  final_score : Qv
  rule_trace : List RuleTrace
deriving DecidableEq, Repr

/-- Modelled from the spec: an extracted skill (canonical name, confidence,
evidence text and span), §3 and the `extracted_skills_*` tables of the
repository instructions; the extractor itself is an external collaborator. -/
structure ExtractedSkill where
  canonical_skill : String
  confidence : Qv
  evidence_text : String
  span_start : Nat
  span_end : Nat
deriving DecidableEq, Repr

/-- Modelled from the spec: a candidate profile (§3); only the attributes the
rule engine consults are kept. -/
structure CandidateProfile where
  id : Nat
  location : String
  years_experience : Qv
  skills : List ExtractedSkill
deriving DecidableEq, Repr

/-- Modelled from the spec: a job profile (§3); only the attributes the rule
engine consults are kept. -/
structure JobProfile where
  id : Nat
  location : String
  remote_policy : String
  min_years_experience : Qv
  skills : List ExtractedSkill
deriving DecidableEq, Repr

/-- Modelled from the spec: the type-specific parameter bag of a rule (§3,
and the JSON rule-config pattern of the repository instructions §6.2).
Fields not used by a given rule type keep their defaults. -/
structure RuleParams where
  all_of : List String := []
  min_confidence : Qv := Qv.ofInt 0
  min : Qv := Qv.ofInt 0
  any_of : List String := []
  per_skill_bonus : Qv := Qv.ofInt 0
  cap : Option Qv := none
  per_year_bonus : Qv := Qv.ofInt 0
  bonus : Qv := Qv.ofInt 0
deriving DecidableEq, Repr

/-- Modelled from the spec: one configured rule — id, display name, rule-type
tag, parameter bag (§3). -/
structure Rule where
  id : String
  name : String
  type : String
  params : RuleParams
deriving DecidableEq, Repr

/-- Modelled from the spec: a versioned, immutable rule configuration —
ordered hard rules then ordered soft rules (§3). -/
structure RuleConfig where
  rules_version : String
  hard_rules : List Rule
  soft_rules : List Rule
deriving DecidableEq, Repr

/-- Modelled from the spec: the run-fatal error taxonomy of §7 that the core
surfaces (unknown rule type carries the offending rule id; missing job
embedding carries the job id). -/
inductive MatchError where
  | unknownRuleType (rule_id : String)
  | embeddingNotFound (job_id : Nat)
deriving DecidableEq, Repr

/-! ## Typed rule representation

The design notes (§9) require the loosely-typed JSON rules to be parsed once,
at configuration-load time, into a closed tagged-variant set, with validation
errors raised before any matching run starts. -/

/-- Modelled from the spec: the closed set of hard rule types (§4.2). -/
inductive HardRuleType where
  | skills_required (all_of : List String) (min_confidence : Qv)
  | min_years (min : Qv)
  | location_match
deriving DecidableEq, Repr

/-- Modelled from the spec: the closed set of soft rule types (§4.2). -/
inductive SoftRuleType where
  | skills_bonus (any_of : List String) (per_skill_bonus : Qv) (cap : Option Qv)
  | years_bonus (per_year_bonus : Qv)
  | location_bonus (bonus : Qv)
deriving DecidableEq, Repr

/-- A parsed rule: id and display name, with its typed payload. -/
structure TypedRule (τ : Type) where
  id : String
  name : String
  rule : τ
deriving DecidableEq, Repr

/-- Modelled from the spec: a rule configuration after load-time parsing. -/
structure TypedConfig where
  rules_version : String
  hard_rules : List (TypedRule HardRuleType)
  soft_rules : List (TypedRule SoftRuleType)
deriving DecidableEq, Repr

/-- Traverse a list with a fallible function, stopping at the first error. -/
def mapExcept (f : α → Except ε β) : List α → Except ε (List β)
  | [] => .ok []
  | a :: as =>
    match f a with
    | .error e => .error e
    | .ok b =>
      match mapExcept f as with
      | .error e => .error e
      | .ok bs => .ok (b :: bs)

/-- Modelled from the spec: dispatch of a hard rule by its rule-type tag;
an unknown tag is a configuration error carrying the offending rule id
(§4.2, §7). -/
def parseHardRule (r : Rule) : Except MatchError (TypedRule HardRuleType) :=
  match r.type with
  | "skills_required" =>
    .ok ⟨r.id, r.name, .skills_required r.params.all_of r.params.min_confidence⟩
  | "min_years" => .ok ⟨r.id, r.name, .min_years r.params.min⟩
  | "location_match" => .ok ⟨r.id, r.name, .location_match⟩
  | _ => .error (.unknownRuleType r.id)

/-- Modelled from the spec: dispatch of a soft rule by its rule-type tag;
an unknown tag is a configuration error carrying the offending rule id
(§4.2, §7). -/
def parseSoftRule (r : Rule) : Except MatchError (TypedRule SoftRuleType) :=
  match r.type with
  | "skills_bonus" =>
    .ok ⟨r.id, r.name,
      .skills_bonus r.params.any_of r.params.per_skill_bonus r.params.cap⟩
  | "years_bonus" => .ok ⟨r.id, r.name, .years_bonus r.params.per_year_bonus⟩
  | "location_bonus" => .ok ⟨r.id, r.name, .location_bonus r.params.bonus⟩
  | _ => .error (.unknownRuleType r.id)

/-- Modelled from the spec: load-time parsing and validation of a rule
configuration (§9): every rule of both ordered lists is dispatched by tag,
and any unknown tag fails the load with `UnknownRuleTypeError`. -/
def loadConfig (cfg : RuleConfig) : Except MatchError TypedConfig :=
  match mapExcept parseHardRule cfg.hard_rules with
  | .error e => .error e
  | .ok hard =>
    match mapExcept parseSoftRule cfg.soft_rules with
    | .error e => .error e
    | .ok soft => .ok ⟨cfg.rules_version, hard, soft⟩

/-! ## Rule engine (modelled from the spec, §4.2) -/

/-- Modelled from the spec: does the candidate have skill `sk` extracted with
confidence at least `minc` (§4.2, `skills_required`)? -/
def hasConfidentSkill (cand : CandidateProfile) (sk : String) (minc : Qv) : Bool :=
  cand.skills.any (fun s => s.canonical_skill == sk && decide (Qv.le minc s.confidence))

/-- Modelled from the spec: does the candidate have skill `sk` at all
(§4.2, `skills_bonus` counts matched skills of `any_of`)? -/
def hasSkill (cand : CandidateProfile) (sk : String) : Bool :=
  cand.skills.any (fun s => s.canonical_skill == sk)

/-- Modelled from the spec: candidate/job location compatibility (§4.2,
`location_match`); the configured policy is taken to be: compatible when the
job is remote or the locations coincide. -/
def locationCompatible (job : JobProfile) (cand : CandidateProfile) : Bool :=
  job.remote_policy == "remote" || cand.location == job.location

/-- Modelled from the spec: evidence of the matching extracted skills (§4.2:
"evidence = matching extracted-skill evidence spans"). -/
def skillEvidence (cand : CandidateProfile) (names : List String) : List RuleEvidence :=
  (cand.skills.filter (fun s => names.contains s.canonical_skill)).map
    (fun s => ⟨"candidate_resume", s.evidence_text, some (s.span_start, s.span_end)⟩)

/-- Modelled from the spec: evaluation of one hard rule against a candidate
(§4.2); hard rules carry score delta 0 (§3). -/
def evalHardRule (job : JobProfile) (cand : CandidateProfile)
    (tr : TypedRule HardRuleType) : RuleTrace :=
  match tr.rule with
  | .skills_required all_of minc =>
    if all_of.all (fun sk => hasConfidentSkill cand sk minc) then
      ⟨tr.id, tr.name, .PASS, "candidate has all required skills",
        skillEvidence cand all_of, Qv.ofInt 0⟩
    else
      ⟨tr.id, tr.name, .FAIL, "candidate lacks a required skill",
        skillEvidence cand all_of, Qv.ofInt 0⟩
  | .min_years m =>
    if Qv.le m cand.years_experience then
      ⟨tr.id, tr.name, .PASS, "years of experience meet the minimum", [], Qv.ofInt 0⟩
    else
      ⟨tr.id, tr.name, .FAIL, "years of experience below the minimum", [], Qv.ofInt 0⟩
  | .location_match =>
    if locationCompatible job cand then
      ⟨tr.id, tr.name, .PASS, "location compatible", [], Qv.ofInt 0⟩
    else
      ⟨tr.id, tr.name, .FAIL, "location not compatible", [], Qv.ofInt 0⟩

/-- Modelled from the spec: evaluation of one soft rule against a candidate
(§4.2): `skills_bonus` adds `per_skill_bonus` per matched skill of `any_of`
(capped when a cap parameter is present); `years_bonus` and `location_bonus`
are monotone bonuses. -/
def evalSoftRule (job : JobProfile) (cand : CandidateProfile)
    (tr : TypedRule SoftRuleType) : RuleTrace :=
  match tr.rule with
  | .skills_bonus any_of per cap =>
    let matched := any_of.filter (fun sk => hasSkill cand sk)
    let raw := Qv.mul per (Qv.ofInt matched.length)
    let delta := match cap with | none => raw | some c => Qv.qmin raw c
    ⟨tr.id, tr.name, .PASS, "bonus for matched nice-to-have skills",
      skillEvidence cand matched, delta⟩
  | .years_bonus per =>
    ⟨tr.id, tr.name, .PASS, "bonus for years of experience", [],
      Qv.mul per cand.years_experience⟩
  | .location_bonus b =>
    ⟨tr.id, tr.name, .PASS, "bonus for location preference", [],
      if locationCompatible job cand then b else Qv.ofInt 0⟩

/-- Modelled from the spec: the SKIP verdict given to a soft rule when a hard
rule failed (§4.2: soft rules of excluded candidates are marked SKIP with this
exact reason). -/
def skipTrace (tr : TypedRule SoftRuleType) : RuleTrace :=
  ⟨tr.id, tr.name, .SKIP, "excluded by hard rule failure", [], Qv.ofInt 0⟩

/-- Modelled from the spec: rule evaluation of one candidate over a parsed
configuration (§4.2).  Every hard rule is evaluated in configured order with
no short-circuiting; `hardRulesPassed` is true iff every hard verdict is PASS;
soft rules are evaluated only for candidates passing all hard rules and are
otherwise marked SKIP. -/
def evaluateTyped (tc : TypedConfig) (job : JobProfile) (cand : CandidateProfile) :
    List RuleTrace × Bool :=
  let hardVerdicts := tc.hard_rules.map (evalHardRule job cand)
  let hardRulesPassed := hardVerdicts.all (fun v => v.status == .PASS)
  let softVerdicts :=
    if hardRulesPassed then tc.soft_rules.map (evalSoftRule job cand)
    else tc.soft_rules.map skipTrace
  (hardVerdicts ++ softVerdicts, hardRulesPassed)

/-- Modelled from the spec: the rule-engine contract
`evaluate(ruleConfig, jobProfile, candidateProfile, retrievalSimilarity)`
(§4.2): unknown rule-type tags fail the whole evaluation with
`UnknownRuleTypeError`; otherwise the verdict list and `hardRulesPassed` are
returned.  The retrieval similarity is part of the contract but no built-in
rule consults it. -/
def evaluate (cfg : RuleConfig) (job : JobProfile) (cand : CandidateProfile)
    (_sim : Qv) : Except MatchError (List RuleTrace × Bool) :=
  match loadConfig cfg with
  | .error e => .error e
  | .ok tc => .ok (evaluateTyped tc job cand)

/-! ## Scorer / Ranker (modelled from the spec, §4.3) -/

/-- Modelled from the spec: the default base-score transform,
`similarity × 100` (§4.3). -/
def base_score (sim : Qv) : Qv := Qv.mul sim (Qv.ofInt 100)

/-- Modelled from the spec: `final_score = base_score(retrieval_similarity) +
Σ soft_rule_deltas` (§4.3); hard verdicts carry delta 0, so summing every
delta of every verdict sums exactly the soft deltas. -/
def finalScore (sim : Qv) (verdicts : List RuleTrace) : Qv :=
  Qv.add (base_score sim) (qsum (verdicts.map (fun v => v.score_delta)))

/-- Modelled from the spec: the audit-trace assembly step (§4.4) packaging the
verdict list, retrieval similarity and final score into a `MatchResult` entry
(the rank is assigned after sorting). -/
def buildResult (tc : TypedConfig) (job : JobProfile) (cand : CandidateProfile)
    (cid : Nat) (sim : Qv) : MatchResult :=
  let verdicts := (evaluateTyped tc job cand).1
  ⟨cid, 0, sim, finalScore sim verdicts, verdicts⟩

/-- Modelled from the spec: the ranking order of §4.3 — final score
descending, ties by retrieval similarity descending, then candidate id
ascending.  `rankLE a b` states that `a` may be placed no later than `b`. -/
def rankLE (a b : MatchResult) : Prop :=
  Qv.lt b.final_score a.final_score ∨
    (Qv.eqv a.final_score b.final_score ∧
      (Qv.lt b.retrieval_similarity a.retrieval_similarity ∨
        (Qv.eqv a.retrieval_similarity b.retrieval_similarity ∧
          a.candidate_id ≤ b.candidate_id)))

instance : DecidableRel rankLE := fun a b => by
  unfold rankLE; exact inferInstance

/-- Modelled from the spec: the retrieval output order of §4.1 — similarity
descending, ties by candidate id ascending. -/
def retrLE (a b : Nat × Qv) : Prop :=
  Qv.lt b.2 a.2 ∨ (Qv.eqv a.2 b.2 ∧ a.1 ≤ b.1)

instance : DecidableRel retrLE := fun a b => by
  unfold retrLE; exact inferInstance

/-! ## The ranking order is a total preorder

Each entry is mapped to a lexicographic key (final score descending,
similarity descending, candidate id ascending); `rankLE` is exactly key
comparison in that lexicographic linear order, which yields totality,
transitivity, and antisymmetry up to the key. -/

/-- Lexicographic sort key of an entry. -/
def rankKey (r : MatchResult) : ℚᵒᵈ ×ₗ ℚᵒᵈ ×ₗ ℕ :=
  toLex (OrderDual.toDual r.final_score.toRat,
    toLex (OrderDual.toDual r.retrieval_similarity.toRat, r.candidate_id))

theorem rankLE_iff_key (a b : MatchResult) : rankLE a b ↔ rankKey a ≤ rankKey b := by
  simp only [rankLE, rankKey, Qv.lt, Qv.eqv, Prod.Lex.le_iff, OrderDual.toDual_lt_toDual,
    OrderDual.toDual_inj]

theorem rankLE_trans {a b c : MatchResult} (h₁ : rankLE a b) (h₂ : rankLE b c) :
    rankLE a c :=
  (rankLE_iff_key a c).mpr (le_trans ((rankLE_iff_key a b).mp h₁) ((rankLE_iff_key b c).mp h₂))

theorem rankLE_total (a b : MatchResult) : rankLE a b ∨ rankLE b a := by
  rcases le_total (rankKey a) (rankKey b) with h | h
  · exact Or.inl ((rankLE_iff_key a b).mpr h)
  · exact Or.inr ((rankLE_iff_key b a).mpr h)

instance : IsTrans MatchResult rankLE := ⟨fun _ _ _ => rankLE_trans⟩

instance : IsTotal MatchResult rankLE := ⟨rankLE_total⟩

theorem rankLE_antisymm_fields {a b : MatchResult} (h₁ : rankLE a b) (h₂ : rankLE b a) :
    a.final_score.toRat = b.final_score.toRat ∧
      a.retrieval_similarity.toRat = b.retrieval_similarity.toRat ∧
      a.candidate_id = b.candidate_id := by
  have hk : rankKey a = rankKey b :=
    le_antisymm ((rankLE_iff_key a b).mp h₁) ((rankLE_iff_key b a).mp h₂)
  simp only [rankKey, toLex_inj, Prod.mk.injEq, OrderDual.toDual_inj] at hk
  exact ⟨hk.1, hk.2.1, hk.2.2⟩

/-- Ranking invariant of the claim, strict on full ties: an earlier entry has
strictly greater final score, or equal final score and strictly greater
similarity, or equal both and strictly smaller candidate id. -/
def rankStrict (a b : MatchResult) : Prop :=
  Qv.lt b.final_score a.final_score ∨
    (Qv.eqv a.final_score b.final_score ∧
      (Qv.lt b.retrieval_similarity a.retrieval_similarity ∨
        (Qv.eqv a.retrieval_similarity b.retrieval_similarity ∧
          a.candidate_id < b.candidate_id)))

/-- Lexicographic sort key of a retrieval pair. -/
def retrKey (p : Nat × Qv) : ℚᵒᵈ ×ₗ ℕ :=
  toLex (OrderDual.toDual p.2.toRat, p.1)

theorem retrLE_iff_key (a b : Nat × Qv) : retrLE a b ↔ retrKey a ≤ retrKey b := by
  simp only [retrLE, retrKey, Qv.lt, Qv.eqv, Prod.Lex.le_iff, OrderDual.toDual_lt_toDual,
    OrderDual.toDual_inj]

instance : IsTrans (Nat × Qv) retrLE :=
  ⟨fun a b c h₁ h₂ => (retrLE_iff_key a c).mpr
    (le_trans ((retrLE_iff_key a b).mp h₁) ((retrLE_iff_key b c).mp h₂))⟩

instance : IsTotal (Nat × Qv) retrLE :=
  ⟨fun a b => by
    rcases le_total (retrKey a) (retrKey b) with h | h
    · exact Or.inl ((retrLE_iff_key a b).mpr h)
    · exact Or.inr ((retrLE_iff_key b a).mpr h)⟩

/-! ## Retrieval, pipeline, persistence (modelled from the spec, §4.1-§4.5, §6) -/

/-- Modelled from the spec: rank assignment, 1-based and dense (§4.3:
"assign rank = 1-based position"). -/
def assignRanks : Nat → List MatchResult → List MatchResult
  | _, [] => []
  | i, r :: rs => { r with rank := i } :: assignRanks (i + 1) rs

/-- Modelled from the spec: the retrieval engine (§4.1): up to TopK
(candidate id, similarity) pairs, ordered descending by similarity with ties
by candidate id ascending; candidates with no stored embedding are excluded.
The similarity measure (`1 - cosine_distance` over externally produced
vectors) is supplied as a function, since the embedding model is an external
collaborator. -/
def retrieve (simf : List Qv → List Qv → Qv) (jobVec : List Qv)
    (candEmb : List (Nat × Option (List Qv))) (topK : Nat) : List (Nat × Qv) :=
  let sims := candEmb.filterMap (fun p => p.2.map (fun v => (p.1, simf jobVec v)))
  (List.insertionSort retrLE sims).take topK

/-- Modelled from the spec: the per-run pipeline after retrieval (§4.3):
candidates failing any hard rule are excluded, the rest are scored, sorted by
the ranking order, truncated to TopN, and given dense 1-based ranks. -/
def pipeline (tc : TypedConfig) (job : JobProfile) (cand : Nat → CandidateProfile)
    (topN : Nat) (retrieved : List (Nat × Qv)) : List MatchResult :=
  let kept := retrieved.filter (fun p => (evaluateTyped tc job (cand p.1)).2)
  let scored := kept.map (fun p => buildResult tc job (cand p.1) p.1 p.2)
  assignRanks 1 ((List.insertionSort rankLE scored).take topN)

/-- Modelled from the spec: a persisted shortlist snapshot (§3): job id,
ordered results, the three version tags, computation timestamp, staleness
flag.  The list field is called `matches` in the api.ts responses; `matches`
is reserved in Lean, so the field is named `results` here. -/
structure Shortlist where
  job_id : Nat
  results : List MatchResult
  embedding_model_version : String
  taxonomy_version : String
  rules_version : String
  computed_at : Nat
  is_stale : Bool
deriving DecidableEq, Repr

/-- Modelled from the spec: the immutable inputs a matching run reads — the
profile and embedding stores, the similarity measure, the active rule
configuration, TopK/TopN and the remaining version tags (§2, §6).  A job id
unknown to the embedding store maps to `none`; a known job with no stored
embedding maps to `some none` (§4.1 keeps these distinct). -/
structure World where
  job : Nat → JobProfile
  cand : Nat → CandidateProfile
  jobEmb : Nat → Option (Option (List Qv))
  candEmb : List (Nat × Option (List Qv))
  simf : List Qv → List Qv → Qv
  cfg : RuleConfig
  topK : Nat
  topN : Nat
  embedding_model_version : String
  taxonomy_version : String

/-- Modelled from the spec: `runMatch(jobId, topK, topN, rulesVersion)` (§6):
the configuration is parsed and validated before the run starts (§9), an
unknown job id fails with `EmbeddingNotFoundError`, a job with no stored
embedding yields an empty retrieval (§4.1), and the produced shortlist is
fresh (`is_stale = false`) and stamped `now`. -/
def runMatch (w : World) (jobId : Nat) (now : Nat) : Except MatchError Shortlist :=
  match loadConfig w.cfg with
  | .error e => .error e
  | .ok tc =>
    match w.jobEmb jobId with
    | none => .error (.embeddingNotFound jobId)
    | some jv =>
      let retrieved :=
        match jv with
        | none => []
        | some v => retrieve w.simf v w.candEmb w.topK
      let results := pipeline tc (w.job jobId) w.cand w.topN retrieved
      .ok ⟨jobId, results, w.embedding_model_version, w.taxonomy_version,
        w.cfg.rules_version, now, false⟩

/-- The shortlist store: one optional snapshot per job id. -/
def ShortlistStore : Type := Nat → Option Shortlist

/-- Modelled from the spec: `persist` overwrites any prior shortlist for the
job wholesale (§4.5). -/
def persist (store : ShortlistStore) (jobId : Nat) (sl : Shortlist) : ShortlistStore :=
  fun j => if j = jobId then some sl else store j

/-- Modelled from the spec: a matching run either completes and persists, or
fails atomically with nothing persisted (§5, §7: a run-fatal error leaves the
previous shortlist untouched). -/
def runMatchPersist (w : World) (store : ShortlistStore) (jobId : Nat) (now : Nat) :
    ShortlistStore × Except MatchError Shortlist :=
  match runMatch w jobId now with
  | .ok sl => (persist store jobId sl, .ok sl)
  | .error e => (store, .error e)

/-- Modelled from the spec: `read(jobId) -> Shortlist | NotFound` (§4.5),
returning the stored snapshot unchanged. -/
def getShortlist (store : ShortlistStore) (jobId : Nat) : Option Shortlist :=
  store jobId

/-- Modelled from the spec: `invalidate(jobId)` / `markStale` (§4.5, §6):
staleness marking is the only in-place mutation outside a full recompute and
triggers no recomputation. -/
def invalidate (store : ShortlistStore) (jobId : Nat) : ShortlistStore :=
  fun j => if j = jobId then (store j).map (fun sl => { sl with is_stale := true })
    else store j

/-- A shortlist with its timestamp cleared, for comparisons up to
`computed_at`. -/
def stripTime (sl : Shortlist) : Shortlist := { sl with computed_at := 0 }

/-! ## A concrete instantiation

A small world mirroring the test scenarios of the specification (§8): a job
requiring `Python` and `PostgreSQL` at confidence ≥ 0.7, a soft
`skills_bonus` of 5 per matched skill of `FastAPI`/`Docker`, and three
candidates — used as the concrete input of the witnesses below. -/

/-- Required-skills rule of the scenario. -/
def demoHardRule : Rule :=
  ⟨"must_have_skills", "Must-have skills", "skills_required",
    { all_of := ["Python", "PostgreSQL"], min_confidence := ⟨7, 9⟩ }⟩

/-- Nice-to-have-skills rule of the scenario. -/
def demoSoftRule : Rule :=
  ⟨"nice_to_have_skills", "Nice-to-have skills", "skills_bonus",
    { any_of := ["FastAPI", "Docker"], per_skill_bonus := Qv.ofInt 5 }⟩

/-- The scenario rule configuration. -/
def demoConfig : RuleConfig := ⟨"v1.0.0", [demoHardRule], [demoSoftRule]⟩

/-- Candidate 1: both required skills at confidence 0.9, plus both
nice-to-have skills. -/
def demoCand1 : CandidateProfile :=
  ⟨1, "Hanoi", Qv.ofInt 5,
    [⟨"Python", ⟨9, 9⟩, "Python and PostgreSQL", 10, 30⟩,
     ⟨"PostgreSQL", ⟨9, 9⟩, "Python and PostgreSQL", 10, 30⟩,
     ⟨"FastAPI", ⟨4, 4⟩, "FastAPI services", 40, 56⟩,
     ⟨"Docker", ⟨4, 4⟩, "Docker deployments", 60, 78⟩]⟩

/-- Candidate 2: only `Python`; fails the hard rule. -/
def demoCand2 : CandidateProfile :=
  ⟨2, "Hanoi", Qv.ofInt 4, [⟨"Python", ⟨9, 9⟩, "Python background", 5, 22⟩]⟩

/-- Candidate 3: both required skills, no nice-to-have skill. -/
def demoCand3 : CandidateProfile :=
  ⟨3, "Saigon", Qv.ofInt 6,
    [⟨"Python", ⟨9, 9⟩, "Python work", 0, 11⟩,
     ⟨"PostgreSQL", ⟨9, 9⟩, "PostgreSQL work", 15, 30⟩]⟩

/-- The scenario job. -/
def demoJob : JobProfile := ⟨1, "Hanoi", "remote", Qv.ofInt 3, []⟩

/-- The scenario world: job 1 has a stored embedding, candidates 1-3 have
embeddings (candidate 4 is known without one), similarity is the dot
product. -/
def demoWorld : World where
  job := fun _ => demoJob
  cand := fun cid =>
    match cid with
    | 1 => demoCand1
    | 2 => demoCand2
    | 3 => demoCand3
    | _ => ⟨cid, "", Qv.ofInt 0, []⟩
  jobEmb := fun j => if j = 1 then some (some [Qv.ofInt 1]) else none
  candEmb :=
    [(1, some [⟨41, 49⟩]), (2, some [⟨9, 9⟩]), (3, some [⟨7, 9⟩]), (4, none)]
  simf := fun a b => qsum (List.zipWith Qv.mul a b)
  cfg := demoConfig
  topK := 10
  topN := 2
  embedding_model_version := "emb-v1"
  taxonomy_version := "taxo-v1"

/-- The scenario run. -/
def demoRun : Except MatchError Shortlist := runMatch demoWorld 1 7

/-- The shortlist the scenario run produces. -/
def demoShortlist : Shortlist :=
  match demoRun with
  | .ok sl => sl
  | .error _ => ⟨0, [], "", "", "", 0, true⟩

theorem demoRun_eq : demoRun = .ok demoShortlist := rfl

example : demoShortlist.results.length = 2 := by decide
example : demoShortlist.results.map (fun r => r.candidate_id) = [1, 3] := by decide
example : demoShortlist.results.map (fun r => r.rank) = [1, 2] := by decide


/-- The empty shortlist store. -/
def demoStore0 : ShortlistStore := fun _ => none

/-- The store after persisting the scenario run. -/
def demoStore1 : ShortlistStore := persist demoStore0 1 demoShortlist

/-- A rule with an unknown rule-type tag. -/
def demoBadRule : Rule := ⟨"bad_rule", "Bad rule", "skills_matrix", {}⟩

/-- The scenario world with a configuration containing an unknown rule-type
tag. -/
def demoBadWorld : World := { demoWorld with cfg := ⟨"v-bad", [demoBadRule], []⟩ }


/-- The parsed scenario configuration. -/
def demoTypedConfig : TypedConfig :=
  match loadConfig demoConfig with
  | .ok tc => tc
  | .error _ => ⟨"", [], []⟩

/-- The rule evaluation of candidate 2 (who fails the hard rule). -/
def demoEval2 : List RuleTrace × Bool :=
  match evaluate demoConfig demoJob demoCand2 ⟨9, 9⟩ with
  | .ok p => p
  | .error _ => ([], true)


/-- A retrieval list over the scenario candidates. -/
def demoRetr1 : List (Nat × Qv) := [(1, ⟨41, 49⟩), (2, ⟨9, 9⟩), (3, ⟨7, 9⟩)]

/-- The same retrieval list with its first two entries swapped. -/
def demoRetr2 : List (Nat × Qv) := [(2, ⟨9, 9⟩), (1, ⟨41, 49⟩), (3, ⟨7, 9⟩)]

/-! ## Infrastructure lemmas -/

theorem mapExcept_ok_forall₂ {f : α → Except ε β} :
    ∀ {l : List α} {l' : List β}, mapExcept f l = .ok l' →
      List.Forall₂ (fun a b => f a = .ok b) l l'
  | [], l', h => by
    simp only [mapExcept] at h
    cases h
    exact List.Forall₂.nil
  | a :: as, l', h => by
    simp only [mapExcept] at h
    cases hfa : f a with
    | error e => rw [hfa] at h; cases h
    | ok b =>
      rw [hfa] at h
      cases hrest : mapExcept f as with
      | error e => rw [hrest] at h; cases h
      | ok bs =>
        rw [hrest] at h
        cases h
        exact List.Forall₂.cons hfa (mapExcept_ok_forall₂ hrest)

theorem mapExcept_error_of_mem {f : α → Except ε β} :
    ∀ {l : List α}, (∃ a ∈ l, ∃ e, f a = .error e) →
      ∃ e', mapExcept f l = .error e' ∧ ∃ a ∈ l, f a = .error e'
  | [], h => by simp at h
  | a :: as, h => by
    simp only [mapExcept]
    cases hfa : f a with
    | error e => exact ⟨e, rfl, a, List.mem_cons_self a as, hfa⟩
    | ok b =>
      obtain ⟨x, hx, ex, hex⟩ := h
      rcases List.mem_cons.mp hx with rfl | hx'
      · rw [hfa] at hex; cases hex
      · obtain ⟨e', he', y, hy, hye⟩ := mapExcept_error_of_mem ⟨x, hx', ex, hex⟩
        rw [he']
        exact ⟨e', rfl, y, List.mem_cons_of_mem a hy, hye⟩

theorem assignRanks_length : ∀ (n : Nat) (l : List MatchResult),
    (assignRanks n l).length = l.length
  | _, [] => rfl
  | n, _ :: rs => by simp [assignRanks, assignRanks_length (n + 1) rs]

theorem assignRanks_get : ∀ (n : Nat) (l : List MatchResult) (i : Nat)
    (hi : i < (assignRanks n l).length) (hi' : i < l.length),
    (assignRanks n l).get ⟨i, hi⟩ = { l.get ⟨i, hi'⟩ with rank := n + i }
  | n, r :: rs, 0, _, _ => by simp [assignRanks]
  | n, r :: rs, i + 1, hi, hi' => by
    simp only [assignRanks, List.get_cons_succ]
    rw [assignRanks_get (n + 1) rs i]
    simp only [Nat.add_assoc, Nat.add_comm 1 i]
    exact Nat.lt_of_succ_lt_succ hi'

theorem assignRanks_mem {b : MatchResult} : ∀ {n : Nat} {l : List MatchResult},
    b ∈ assignRanks n l → ∃ a ∈ l, ∃ k, b = { a with rank := k }
  | n, [], h => by simp [assignRanks] at h
  | n, r :: rs, h => by
    simp only [assignRanks, List.mem_cons] at h
    rcases h with rfl | h'
    · exact ⟨r, List.mem_cons_self r rs, n, rfl⟩
    · obtain ⟨a, ha, k, hk⟩ := assignRanks_mem h'
      exact ⟨a, List.mem_cons_of_mem r ha, k, hk⟩

theorem assignRanks_pairwise {R : MatchResult → MatchResult → Prop}
    (hR : ∀ a b i j, R a b → R { a with rank := i } { b with rank := j }) :
    ∀ {n : Nat} {l : List MatchResult}, l.Pairwise R → (assignRanks n l).Pairwise R
  | _, [], _ => List.Pairwise.nil
  | n, r :: rs, h => by
    rcases List.pairwise_cons.mp h with ⟨hhead, htail⟩
    refine List.pairwise_cons.mpr ⟨?_, assignRanks_pairwise hR htail⟩
    intro b hb
    obtain ⟨a, ha, k, rfl⟩ := assignRanks_mem hb
    exact hR r a n k (hhead a ha)

/-- Two sorted lists that are permutations of one another are equal, provided
the order is antisymmetric on the elements of the first list. -/
theorem eq_of_perm_of_sorted_local {r : α → α → Prop} :
    ∀ {l₁ l₂ : List α}, l₁.Perm l₂ → l₁.Pairwise r → l₂.Pairwise r →
      (∀ a ∈ l₁, ∀ b ∈ l₁, r a b → r b a → a = b) → l₁ = l₂
  | [], l₂, hp, _, _, _ => (hp.nil_eq).symm ▸ rfl
  | a :: t₁, [], hp, _, _, _ => by
    have := hp.length_eq
    simp at this
  | a :: t₁, b :: t₂, hp, hs₁, hs₂, ha => by
    rcases List.pairwise_cons.mp hs₁ with ⟨h₁, ht₁⟩
    rcases List.pairwise_cons.mp hs₂ with ⟨h₂, ht₂⟩
    have hb₁ : b ∈ a :: t₁ := hp.mem_iff.mpr (List.mem_cons_self b t₂)
    have hab : a = b := by
      rcases List.mem_cons.mp hb₁ with rfl | hbt₁
      · rfl
      · have hrab : r a b := h₁ b hbt₁
        have ha₂ : a ∈ b :: t₂ := hp.mem_iff.mp (List.mem_cons_self a t₁)
        rcases List.mem_cons.mp ha₂ with rfl | hat₂
        · rfl
        · exact ha a (List.mem_cons_self a t₁) b (List.mem_cons_of_mem a hbt₁)
            hrab (h₂ a hat₂)
    subst hab
    have hp' : t₁.Perm t₂ := (List.perm_cons a).mp hp
    have : t₁ = t₂ :=
      eq_of_perm_of_sorted_local hp' ht₁ ht₂
        (fun x hx y hy => ha x (List.mem_cons_of_mem a hx) y (List.mem_cons_of_mem a hy))
    rw [this]

/-! ## Rule-level lemmas -/

/-- Modelled from the spec: the closed set of hard rule-type tags the
dispatcher knows (§4.2). -/
def knownHardTags : List String := ["skills_required", "min_years", "location_match"]

/-- Modelled from the spec: the closed set of soft rule-type tags the
dispatcher knows (§4.2). -/
def knownSoftTags : List String := ["skills_bonus", "years_bonus", "location_bonus"]

theorem parseHardRule_ok_id {r : Rule} {tr : TypedRule HardRuleType}
    (h : parseHardRule r = .ok tr) : tr.id = r.id ∧ tr.name = r.name := by
  unfold parseHardRule at h
  split at h <;> cases h <;> exact ⟨rfl, rfl⟩

theorem parseSoftRule_ok_id {r : Rule} {tr : TypedRule SoftRuleType}
    (h : parseSoftRule r = .ok tr) : tr.id = r.id ∧ tr.name = r.name := by
  unfold parseSoftRule at h
  split at h <;> cases h <;> exact ⟨rfl, rfl⟩

theorem parseHardRule_error_of_unknown {r : Rule} (h : r.type ∉ knownHardTags) :
    parseHardRule r = .error (.unknownRuleType r.id) := by
  unfold parseHardRule
  split <;> simp_all [knownHardTags]

theorem parseSoftRule_error_of_unknown {r : Rule} (h : r.type ∉ knownSoftTags) :
    parseSoftRule r = .error (.unknownRuleType r.id) := by
  unfold parseSoftRule
  split <;> simp_all [knownSoftTags]

theorem parseHardRule_error_shape {r : Rule} {e : MatchError}
    (h : parseHardRule r = .error e) : e = .unknownRuleType r.id := by
  unfold parseHardRule at h
  split at h <;> cases h <;> rfl

theorem parseSoftRule_error_shape {r : Rule} {e : MatchError}
    (h : parseSoftRule r = .error e) : e = .unknownRuleType r.id := by
  unfold parseSoftRule at h
  split at h <;> cases h <;> rfl

theorem evalHardRule_rule_id (job : JobProfile) (cand : CandidateProfile)
    (tr : TypedRule HardRuleType) : (evalHardRule job cand tr).rule_id = tr.id := by
  unfold evalHardRule
  split <;> split <;> rfl

theorem evalHardRule_delta (job : JobProfile) (cand : CandidateProfile)
    (tr : TypedRule HardRuleType) : (evalHardRule job cand tr).score_delta = Qv.ofInt 0 := by
  unfold evalHardRule
  split <;> split <;> rfl

theorem Qv.zero_add (b : Qv) : Qv.add (Qv.ofInt 0) b = b := by
  cases b with
  | mk n d1 => simp [Qv.add, Qv.ofInt, Qv.den]

theorem qsum_zero_front : ∀ {l₁ l₂ : List Qv}, (∀ v ∈ l₁, v = Qv.ofInt 0) →
    qsum (l₁ ++ l₂) = qsum l₂
  | [], _, _ => rfl
  | a :: as, l₂, h => by
    have ha : a = Qv.ofInt 0 := h a (List.mem_cons_self a as)
    have hrest := @qsum_zero_front as l₂ (fun v hv => h v (List.mem_cons_of_mem a hv))
    simp only [List.cons_append, qsum, List.foldr_cons] at *
    rw [ha, hrest, Qv.zero_add]

theorem forall₂_mem_left {R : α → β → Prop} :
    ∀ {l : List α} {l' : List β}, List.Forall₂ R l l' → ∀ a ∈ l, ∃ b ∈ l', R a b
  | _, _, List.Forall₂.nil, a, ha => by simp at ha
  | _, _, List.Forall₂.cons h hrest, a, ha => by
    rcases List.mem_cons.mp ha with rfl | ha'
    · exact ⟨_, List.mem_cons_self _ _, h⟩
    · obtain ⟨b, hb, hr⟩ := forall₂_mem_left hrest a ha'
      exact ⟨b, List.mem_cons_of_mem _ hb, hr⟩

theorem evaluateTyped_fst (tc : TypedConfig) (job : JobProfile) (cand : CandidateProfile) :
    (evaluateTyped tc job cand).1 =
      tc.hard_rules.map (evalHardRule job cand) ++
        (if (evaluateTyped tc job cand).2 then tc.soft_rules.map (evalSoftRule job cand)
          else tc.soft_rules.map skipTrace) := rfl

theorem evaluateTyped_snd_iff (tc : TypedConfig) (job : JobProfile)
    (cand : CandidateProfile) :
    (evaluateTyped tc job cand).2 = true ↔
      ∀ v ∈ tc.hard_rules.map (evalHardRule job cand), v.status = .PASS := by
  show (tc.hard_rules.map (evalHardRule job cand)).all (fun v => v.status == .PASS) = true ↔ _
  rw [List.all_eq_true]
  constructor
  · intro h v hv; exact beq_iff_eq.mp ((h v) hv)
  · intro h v hv; exact beq_iff_eq.mpr ((h v) hv)

/-! ## Inversion lemmas for the run -/

theorem loadConfig_ok_inv {cfg : RuleConfig} {tc : TypedConfig}
    (h : loadConfig cfg = .ok tc) :
    mapExcept parseHardRule cfg.hard_rules = .ok tc.hard_rules ∧
      mapExcept parseSoftRule cfg.soft_rules = .ok tc.soft_rules ∧
      tc.rules_version = cfg.rules_version := by
  unfold loadConfig at h
  cases hh : mapExcept parseHardRule cfg.hard_rules with
  | error e => rw [hh] at h; cases h
  | ok hard =>
    rw [hh] at h
    cases hs : mapExcept parseSoftRule cfg.soft_rules with
    | error e => rw [hs] at h; cases h
    | ok soft =>
      rw [hs] at h
      cases h
      exact ⟨rfl, rfl, rfl⟩

theorem runMatch_ok_inv {w : World} {jobId now : Nat} {sl : Shortlist}
    (h : runMatch w jobId now = .ok sl) :
    ∃ tc, loadConfig w.cfg = .ok tc ∧ ∃ jv, w.jobEmb jobId = some jv ∧
      sl = ⟨jobId,
        pipeline tc (w.job jobId) w.cand w.topN
          (match jv with
            | none => []
            | some v => retrieve w.simf v w.candEmb w.topK),
        w.embedding_model_version, w.taxonomy_version, w.cfg.rules_version, now, false⟩ := by
  unfold runMatch at h
  cases hc : loadConfig w.cfg with
  | error e => rw [hc] at h; cases h
  | ok tc =>
    rw [hc] at h
    cases he : w.jobEmb jobId with
    | none => rw [he] at h; cases h
    | some jv =>
      rw [he] at h
      cases h
      exact ⟨tc, rfl, jv, rfl, rfl⟩

theorem pipeline_mem {tc : TypedConfig} {job : JobProfile} {cand : Nat → CandidateProfile}
    {topN : Nat} {retrieved : List (Nat × Qv)} {res : MatchResult}
    (h : res ∈ pipeline tc job cand topN retrieved) :
    ∃ p ∈ retrieved, (evaluateTyped tc job (cand p.1)).2 = true ∧
      ∃ k, res = { buildResult tc job (cand p.1) p.1 p.2 with rank := k } := by
  unfold pipeline at h
  obtain ⟨a, ha, k, rfl⟩ := assignRanks_mem h
  have ha' : a ∈ List.insertionSort rankLE
      ((retrieved.filter (fun p => (evaluateTyped tc job (cand p.1)).2)).map
        (fun p => buildResult tc job (cand p.1) p.1 p.2)) :=
    (List.take_sublist _ _).mem ha
  have ha'' := (List.perm_insertionSort rankLE _).mem_iff.mp ha'
  obtain ⟨p, hp, rfl⟩ := List.mem_map.mp ha''
  rcases List.mem_filter.mp hp with ⟨hpr, hppred⟩
  exact ⟨p, hpr, hppred, k, rfl⟩

theorem runMatchPersist_ok_inv {w : World} {store store' : ShortlistStore}
    {jobId now : Nat} {sl : Shortlist}
    (h : runMatchPersist w store jobId now = (store', .ok sl)) :
    runMatch w jobId now = .ok sl ∧ store' = persist store jobId sl := by
  unfold runMatchPersist at h
  cases hr : runMatch w jobId now with
  | error e => rw [hr] at h; cases h
  | ok sl' =>
    rw [hr] at h
    have h1 : persist store jobId sl' = store' := congrArg Prod.fst h
    have h2 : (Except.ok sl' : Except MatchError Shortlist) = .ok sl :=
      congrArg Prod.snd h
    injection h2 with h3
    subst h3
    exact ⟨rfl, h1.symm⟩

/-- C1 helper: every result of a pipeline output has a PASS verdict, with
matching rule id, for every hard rule of the untyped configuration. -/
theorem pipeline_hard_pass {cfg : RuleConfig} {tc : TypedConfig}
    (hload : loadConfig cfg = .ok tc) {job : JobProfile} {cand : Nat → CandidateProfile}
    {topN : Nat} {retrieved : List (Nat × Qv)} {res : MatchResult}
    (hres : res ∈ pipeline tc job cand topN retrieved) :
    ∀ r ∈ cfg.hard_rules, ∃ v ∈ res.rule_trace, v.rule_id = r.id ∧ v.status = .PASS := by
  intro r hr
  obtain ⟨p, _, hpass, k, rfl⟩ := pipeline_mem hres
  obtain ⟨hhard, _, _⟩ := loadConfig_ok_inv hload
  obtain ⟨tr, htr, hparse⟩ := forall₂_mem_left (mapExcept_ok_forall₂ hhard) r hr
  refine ⟨evalHardRule job (cand p.1) tr, ?_, ?_, ?_⟩
  · show _ ∈ (buildResult tc job (cand p.1) p.1 p.2).rule_trace
    show _ ∈ (evaluateTyped tc job (cand p.1)).1
    rw [evaluateTyped_fst]
    exact List.mem_append_left _ (List.mem_map_of_mem _ htr)
  · rw [evalHardRule_rule_id, (parseHardRule_ok_id hparse).1]
  · exact (evaluateTyped_snd_iff tc job (cand p.1)).mp hpass _
      (List.mem_map_of_mem _ htr)

theorem mapExcept_error_mem {f : α → Except ε β} {e : ε} :
    ∀ {l : List α}, mapExcept f l = .error e → ∃ a ∈ l, f a = .error e
  | [], h => by simp [mapExcept] at h
  | a :: as, h => by
    simp only [mapExcept] at h
    cases hfa : f a with
    | error e' =>
      rw [hfa] at h
      cases h
      exact ⟨a, List.mem_cons_self a as, hfa⟩
    | ok b =>
      rw [hfa] at h
      cases hrest : mapExcept f as with
      | error e' =>
        rw [hrest] at h
        cases h
        obtain ⟨x, hx, hxe⟩ := mapExcept_error_mem hrest
        exact ⟨x, List.mem_cons_of_mem a hx, hxe⟩
      | ok bs => rw [hrest] at h; cases h

theorem loadConfig_error_of_unknown {cfg : RuleConfig}
    (h : (∃ r ∈ cfg.hard_rules, r.type ∉ knownHardTags) ∨
      (∃ r ∈ cfg.soft_rules, r.type ∉ knownSoftTags)) :
    ∃ rid, loadConfig cfg = .error (.unknownRuleType rid) := by
  cases hh : mapExcept parseHardRule cfg.hard_rules with
  | error e =>
    obtain ⟨a, _, hae⟩ := mapExcept_error_mem hh
    refine ⟨a.id, ?_⟩
    unfold loadConfig
    rw [hh, parseHardRule_error_shape hae]
  | ok hard =>
    rcases h with ⟨r, hr, hun⟩ | ⟨r, hr, hun⟩
    · obtain ⟨_, _, hre⟩ := forall₂_mem_left (mapExcept_ok_forall₂ hh) r hr
      rw [parseHardRule_error_of_unknown hun] at hre
      cases hre
    · obtain ⟨e, he, a, _, hae⟩ :=
        mapExcept_error_of_mem ⟨r, hr, _, parseSoftRule_error_of_unknown hun⟩
      refine ⟨a.id, ?_⟩
      unfold loadConfig
      rw [hh, he, parseSoftRule_error_shape hae]

theorem runMatch_ok_of {w : World} {jobId : Nat} {tc : TypedConfig}
    {jv : Option (List Qv)} (now : Nat) (hload : loadConfig w.cfg = .ok tc)
    (hemb : w.jobEmb jobId = some jv) :
    runMatch w jobId now = .ok
      ⟨jobId,
        pipeline tc (w.job jobId) w.cand w.topN
          (match jv with
            | none => []
            | some v => retrieve w.simf v w.candEmb w.topK),
        w.embedding_model_version, w.taxonomy_version, w.cfg.rules_version, now, false⟩ := by
  cases jv with
  | none =>
    unfold runMatch
    simp only [hload, hemb]
  | some v =>
    unfold runMatch
    simp only [hload, hemb]

/-! ## The claims -/

/-- C1: every `MatchResult` of a persisted shortlist has, for every hard rule
of the active rule configuration, a PASS verdict carrying the id of that rule in its
`rule_trace` — no candidate failing any hard rule is ever persisted. -/
theorem C1_persisted_hard_rules_pass {w : World} {store store' : ShortlistStore}
    {jobId now : Nat} {sl : Shortlist}
    (h : runMatchPersist w store jobId now = (store', .ok sl)) :
    getShortlist store' jobId = some sl ∧
      ∀ res ∈ sl.results, ∀ r ∈ w.cfg.hard_rules,
        ∃ v ∈ res.rule_trace, v.rule_id = r.id ∧ v.status = .PASS := by
  obtain ⟨hrm, rfl⟩ := runMatchPersist_ok_inv h
  refine ⟨?_, ?_⟩
  · show persist store jobId sl jobId = some sl
    simp [persist]
  · intro res hres r hr
    obtain ⟨tc, hload, jv, hemb, hsl⟩ := runMatch_ok_inv hrm
    subst hsl
    exact pipeline_hard_pass hload hres r hr

/-- C1 witness: the hypothesis holds at the scenario run, and its conclusion
follows. -/
theorem C1_witness :
    runMatchPersist demoWorld demoStore0 1 7 = (demoStore1, .ok demoShortlist) ∧
      (getShortlist demoStore1 1 = some demoShortlist ∧
        ∀ res ∈ demoShortlist.results, ∀ r ∈ demoWorld.cfg.hard_rules,
          ∃ v ∈ res.rule_trace, v.rule_id = r.id ∧ v.status = .PASS) :=
  ⟨rfl, C1_persisted_hard_rules_pass rfl⟩

/-- C3 counterexample: the claim says each served entry itself carries all
eleven fields; but `job_id` is one of the eleven and is not a field of the
`MatchResult` entry shape of api.ts. -/
theorem C3_counterexample :
    ("job_id" ∈ specEntryFields) ∧ ¬ ("job_id" ∈ matchResultFields) := by decide

/-- C3 amended: every one of the eleven specified fields is served — the five
entry fields per entry, and `job_id`, the three version tags and
`computed_at` once per response on both the `runMatch` and `getShortlist`
responses — except `is_stale`, which appears only on the `getShortlist`
response; conversely every entry field is among the specified eleven. -/
theorem C3_amended_field_placement :
    (specEntryFields.all (fun f =>
        matchResultFields.contains f || shortlistResponseFields.contains f) = true) ∧
      (matchResultFields.all (fun f => specEntryFields.contains f) = true) ∧
      (["job_id", "embedding_model_version", "taxonomy_version", "rules_version",
          "computed_at"].all (fun f =>
          matchResponseFields.contains f && shortlistResponseFields.contains f) = true) ∧
      shortlistResponseFields.contains "is_stale" = true ∧
      matchResponseFields.contains "is_stale" = false ∧
      matchResultFields.contains "job_id" = false := by decide

/-- C4: a rule configuration containing an unknown rule-type tag makes the
whole run fail with `UnknownRuleTypeError` (never a silent SKIP), and the
store — hence any prior shortlist for the job — is left unchanged. -/
theorem C4_unknown_rule_type_fails_run {w : World} {store : ShortlistStore}
    {jobId now : Nat}
    (h : (∃ r ∈ w.cfg.hard_rules, r.type ∉ knownHardTags) ∨
      (∃ r ∈ w.cfg.soft_rules, r.type ∉ knownSoftTags)) :
    (∃ rid, (runMatchPersist w store jobId now).2 = .error (.unknownRuleType rid)) ∧
      (runMatchPersist w store jobId now).1 = store := by
  obtain ⟨rid, hload⟩ := loadConfig_error_of_unknown h
  have hrm : runMatch w jobId now = .error (.unknownRuleType rid) := by
    unfold runMatch
    rw [hload]
  constructor
  · refine ⟨rid, ?_⟩
    unfold runMatchPersist
    rw [hrm]
  · unfold runMatchPersist
    rw [hrm]

/-- C4 witness: a concrete configuration with tag `skills_matrix` fails the
run and leaves the empty store unchanged. -/
theorem C4_witness :
    (∃ rid, (runMatchPersist demoBadWorld demoStore0 1 7).2 =
        .error (.unknownRuleType rid)) ∧
      (runMatchPersist demoBadWorld demoStore0 1 7).1 = demoStore0 :=
  C4_unknown_rule_type_fails_run
    (Or.inl ⟨demoBadRule, by decide, by decide⟩)

/-- C5: `runMatch` is idempotent up to the timestamp — a second run with the
same inputs against the store left by the first produces a shortlist equal to
the first one except for `computed_at`. -/
theorem C5_idempotent_up_to_timestamp {w : World} {store store₁ : ShortlistStore}
    {jobId t₁ t₂ : Nat} {sl : Shortlist}
    (h : runMatchPersist w store jobId t₁ = (store₁, .ok sl)) :
    ∃ store₂, runMatchPersist w store₁ jobId t₂ =
        (store₂, .ok { sl with computed_at := t₂ }) ∧
      stripTime { sl with computed_at := t₂ } = stripTime sl := by
  obtain ⟨hrm, rfl⟩ := runMatchPersist_ok_inv h
  obtain ⟨tc, hload, jv, hemb, hsl⟩ := runMatch_ok_inv hrm
  have hok : runMatch w jobId t₂ = .ok { sl with computed_at := t₂ } := by
    cases jv with
    | none =>
      subst hsl
      exact runMatch_ok_of t₂ hload hemb
    | some v =>
      subst hsl
      exact runMatch_ok_of t₂ hload hemb
  refine ⟨persist (persist store jobId sl) jobId { sl with computed_at := t₂ }, ?_, rfl⟩
  unfold runMatchPersist
  rw [hok]

/-- C5 witness: re-running the scenario at time 9 yields the time-7 shortlist
restamped. -/
theorem C5_witness :
    ∃ store₂, runMatchPersist demoWorld demoStore1 1 9 =
        (store₂, .ok { demoShortlist with computed_at := 9 }) ∧
      stripTime { demoShortlist with computed_at := 9 } = stripTime demoShortlist :=
  @C5_idempotent_up_to_timestamp demoWorld demoStore0 demoStore1 1 7 9 demoShortlist rfl

/-- C10: `invalidate(jobId)` sets `is_stale` on the stored shortlist and
changes nothing else — results, timestamp, ids and version tags are
untouched, as are the shortlists of all other jobs. -/
theorem C10_invalidate_only_marks_stale {store : ShortlistStore} {jobId : Nat}
    {sl : Shortlist} (h : getShortlist store jobId = some sl) :
    ∃ sl', getShortlist (invalidate store jobId) jobId = some sl' ∧
      sl'.is_stale = true ∧ sl'.results = sl.results ∧
      sl'.computed_at = sl.computed_at ∧ sl'.job_id = sl.job_id ∧
      sl'.embedding_model_version = sl.embedding_model_version ∧
      sl'.taxonomy_version = sl.taxonomy_version ∧
      sl'.rules_version = sl.rules_version ∧
      ∀ j, j ≠ jobId → getShortlist (invalidate store jobId) j = getShortlist store j := by
  refine ⟨{ sl with is_stale := true }, ?_, rfl, rfl, rfl, rfl, rfl, rfl, rfl, ?_⟩
  · show invalidate store jobId jobId = some { sl with is_stale := true }
    unfold invalidate
    have h' : store jobId = some sl := h
    simp [h']
  · intro j hj
    show invalidate store jobId j = store j
    unfold invalidate
    simp [hj]

/-- C10 witness: invalidating the persisted scenario shortlist. -/
theorem C10_witness :
    getShortlist demoStore1 1 = some demoShortlist ∧
      (∃ sl', getShortlist (invalidate demoStore1 1) 1 = some sl' ∧
        sl'.is_stale = true ∧ sl'.results = demoShortlist.results ∧
        sl'.computed_at = demoShortlist.computed_at ∧
        sl'.job_id = demoShortlist.job_id ∧
        sl'.embedding_model_version = demoShortlist.embedding_model_version ∧
        sl'.taxonomy_version = demoShortlist.taxonomy_version ∧
        sl'.rules_version = demoShortlist.rules_version ∧
        ∀ j, j ≠ 1 → getShortlist (invalidate demoStore1 1) j = getShortlist demoStore1 j) :=
  ⟨rfl, C10_invalidate_only_marks_stale rfl⟩

theorem evaluate_ok_inv {cfg : RuleConfig} {job : JobProfile} {cand : CandidateProfile}
    {sim : Qv} {vs : List RuleTrace} {hp : Bool}
    (h : evaluate cfg job cand sim = .ok (vs, hp)) :
    ∃ tc, loadConfig cfg = .ok tc ∧ vs = (evaluateTyped tc job cand).1 ∧
      hp = (evaluateTyped tc job cand).2 := by
  unfold evaluate at h
  cases hc : loadConfig cfg with
  | error e => rw [hc] at h; cases h
  | ok tc =>
    rw [hc] at h
    injection h with h'
    exact ⟨tc, rfl, congrArg Prod.fst h'.symm, congrArg Prod.snd h'.symm⟩

/-- C7: `evaluate` returns one verdict for every configured rule: the hard
verdicts first, one per hard rule in configured order, each the actual
verdict of evaluating that rule (no short-circuiting after a FAIL);
`hardRulesPassed` is true iff every hard verdict is PASS; and when it is
false every soft rule is marked SKIP with reason
"excluded by hard rule failure". -/
theorem C7_evaluate_complete_trace {cfg : RuleConfig} {job : JobProfile}
    {cand : CandidateProfile} {sim : Qv} {vs : List RuleTrace} {hp : Bool}
    (h : evaluate cfg job cand sim = .ok (vs, hp)) :
    vs.length = cfg.hard_rules.length + cfg.soft_rules.length ∧
      List.Forall₂
        (fun r v => ∃ tr, parseHardRule r = .ok tr ∧ v = evalHardRule job cand tr)
        cfg.hard_rules (vs.take cfg.hard_rules.length) ∧
      (hp = true ↔ ∀ v ∈ vs.take cfg.hard_rules.length, v.status = .PASS) ∧
      (hp = false → ∀ v ∈ vs.drop cfg.hard_rules.length,
        v.status = .SKIP ∧ v.reason = "excluded by hard rule failure") := by
  obtain ⟨tc, hload, hvs, hhp⟩ := evaluate_ok_inv h
  obtain ⟨hhard, hsoft, _⟩ := loadConfig_ok_inv hload
  have hlenH : cfg.hard_rules.length = tc.hard_rules.length :=
    (mapExcept_ok_forall₂ hhard).length_eq
  have hlenS : cfg.soft_rules.length = tc.soft_rules.length :=
    (mapExcept_ok_forall₂ hsoft).length_eq
  have hmapH : (tc.hard_rules.map (evalHardRule job cand)).length = cfg.hard_rules.length := by
    rw [List.length_map, hlenH]
  have htake : vs.take cfg.hard_rules.length = tc.hard_rules.map (evalHardRule job cand) := by
    rw [hvs, evaluateTyped_fst, ← hmapH, List.take_left]
  have hdrop : vs.drop cfg.hard_rules.length =
      (if (evaluateTyped tc job cand).2 then tc.soft_rules.map (evalSoftRule job cand)
        else tc.soft_rules.map skipTrace) := by
    rw [hvs, evaluateTyped_fst, ← hmapH, List.drop_left]
  refine ⟨?_, ?_, ?_, ?_⟩
  · rw [hvs, evaluateTyped_fst, List.length_append, List.length_map, hlenH]
    cases hcond : (evaluateTyped tc job cand).2 <;>
      simp [List.length_map, hlenS]
  · rw [htake, List.forall₂_map_right_iff]
    exact (mapExcept_ok_forall₂ hhard).imp (fun r tr hr => ⟨tr, hr, rfl⟩)
  · rw [htake, hhp]
    exact evaluateTyped_snd_iff tc job cand
  · intro hfalse v hv
    rw [hdrop] at hv
    rw [hhp] at hfalse
    rw [hfalse] at hv
    simp only [if_neg Bool.false_ne_true, Bool.false_eq_true, if_false] at hv
    obtain ⟨tr, _, rfl⟩ := List.mem_map.mp hv
    exact ⟨rfl, rfl⟩

/-- C7 witness: the hypothesis holds on candidate 2, who fails the hard rule,
and the conclusion follows. -/
theorem C7_witness :
    evaluate demoConfig demoJob demoCand2 ⟨9, 9⟩ = .ok (demoEval2.1, demoEval2.2) ∧
      (demoEval2.1.length =
          demoConfig.hard_rules.length + demoConfig.soft_rules.length ∧
        List.Forall₂
          (fun r v => ∃ tr, parseHardRule r = .ok tr ∧ v = evalHardRule demoJob demoCand2 tr)
          demoConfig.hard_rules (demoEval2.1.take demoConfig.hard_rules.length) ∧
        (demoEval2.2 = true ↔
          ∀ v ∈ demoEval2.1.take demoConfig.hard_rules.length, v.status = .PASS) ∧
        (demoEval2.2 = false → ∀ v ∈ demoEval2.1.drop demoConfig.hard_rules.length,
          v.status = .SKIP ∧ v.reason = "excluded by hard rule failure")) :=
  ⟨rfl, @C7_evaluate_complete_trace demoConfig demoJob demoCand2 ⟨9, 9⟩ demoEval2.1 demoEval2.2 rfl⟩

/-- C9: for a candidate passing all hard rules the final score is the base
score of the retrieval similarity (similarity × 100 by default) plus the sum
of the soft-rule score deltas. -/
theorem C9_final_score_formula {tc : TypedConfig} {job : JobProfile}
    {cand : CandidateProfile} (cid : Nat) (sim : Qv)
    (h : (evaluateTyped tc job cand).2 = true) :
    (buildResult tc job cand cid sim).final_score =
      Qv.add (base_score sim)
        (qsum ((tc.soft_rules.map (evalSoftRule job cand)).map
          (fun v => v.score_delta))) := by
  have hv : (evaluateTyped tc job cand).1 =
      tc.hard_rules.map (evalHardRule job cand) ++
        tc.soft_rules.map (evalSoftRule job cand) := by
    rw [evaluateTyped_fst, h]
    simp
  show finalScore sim (evaluateTyped tc job cand).1 = _
  unfold finalScore
  rw [hv, List.map_append, qsum_zero_front]
  intro v hvm
  obtain ⟨w, hw, rfl⟩ := List.mem_map.mp hvm
  obtain ⟨tr, _, rfl⟩ := List.mem_map.mp hw
  exact evalHardRule_delta job cand tr

/-- C9 witness: the scenario of the specification — a `skills_bonus` of 5 per
matched skill over `FastAPI`/`Docker` and a candidate with both gives
`final_score = base_score(similarity) + 10` at similarity 0.82. -/
theorem C9_witness :
    (evaluateTyped demoTypedConfig demoJob demoCand1).2 = true ∧
      (buildResult demoTypedConfig demoJob demoCand1 1 ⟨41, 49⟩).final_score =
        Qv.add (base_score ⟨41, 49⟩) (Qv.ofInt 10) :=
  ⟨by decide, (C9_final_score_formula 1 ⟨41, 49⟩ (by decide)).trans (by decide)⟩

theorem pipeline_length_le (tc : TypedConfig) (job : JobProfile)
    (cand : Nat → CandidateProfile) (topN : Nat) (retrieved : List (Nat × Qv)) :
    (pipeline tc job cand topN retrieved).length ≤ topN := by
  unfold pipeline
  rw [assignRanks_length]
  exact List.length_take_le _ _

theorem pipeline_rank (tc : TypedConfig) (job : JobProfile)
    (cand : Nat → CandidateProfile) (topN : Nat) (retrieved : List (Nat × Qv)) :
    ∀ i (hi : i < (pipeline tc job cand topN retrieved).length),
      ((pipeline tc job cand topN retrieved).get ⟨i, hi⟩).rank = i + 1 := by
  intro i hi
  unfold pipeline at hi ⊢
  have hi' : i <
      ((List.insertionSort rankLE
        ((retrieved.filter (fun p => (evaluateTyped tc job (cand p.1)).2)).map
          (fun p => buildResult tc job (cand p.1) p.1 p.2))).take topN).length := by
    rw [assignRanks_length] at hi
    exact hi
  rw [assignRanks_get 1 _ i hi hi']
  simp [Nat.add_comm]

/-- C8: for a job with a stored embedding (and a loadable configuration) the
run returns a shortlist of size at most TopN whose ranks are exactly
1, 2, …, size, in order and with no gaps. -/
theorem C8_size_and_dense_ranks {w : World} {jobId now : Nat} {v : List Qv}
    (tc : TypedConfig) (hload : loadConfig w.cfg = .ok tc)
    (hemb : w.jobEmb jobId = some (some v)) :
    ∃ sl, runMatch w jobId now = .ok sl ∧ sl.results.length ≤ w.topN ∧
      ∀ i (hi : i < sl.results.length), (sl.results.get ⟨i, hi⟩).rank = i + 1 := by
  refine ⟨_, runMatch_ok_of now hload hemb, ?_, ?_⟩
  · exact pipeline_length_le tc (w.job jobId) w.cand w.topN _
  · exact pipeline_rank tc (w.job jobId) w.cand w.topN _

/-- C8 witness: the scenario run returns two results ranked 1 and 2. -/
theorem C8_witness :
    ∃ sl, runMatch demoWorld 1 7 = .ok sl ∧ sl.results.length ≤ demoWorld.topN ∧
      ∀ i (hi : i < sl.results.length), (sl.results.get ⟨i, hi⟩).rank = i + 1 :=
  C8_size_and_dense_ranks demoTypedConfig rfl rfl

theorem rankStrict_of_le_ne {a b : MatchResult} (h : rankLE a b)
    (hne : a.candidate_id ≠ b.candidate_id) : rankStrict a b := by
  rcases h with hlt | ⟨heq, hlt' | ⟨heq', hle⟩⟩
  · exact Or.inl hlt
  · exact Or.inr ⟨heq, Or.inl hlt'⟩
  · exact Or.inr ⟨heq, Or.inr ⟨heq', lt_of_le_of_ne hle hne⟩⟩

theorem sims_fst_sublist (simf : List Qv → List Qv → Qv) (jobVec : List Qv) :
    ∀ (candEmb : List (Nat × Option (List Qv))),
      ((candEmb.filterMap (fun p => p.2.map (fun v => (p.1, simf jobVec v)))).map
        Prod.fst).Sublist (candEmb.map Prod.fst)
  | [] => List.Sublist.refl []
  | p :: ps => by
    cases hp : p.2 with
    | none =>
      simp only [List.filterMap_cons, hp, Option.map_none', List.map_cons]
      exact (sims_fst_sublist simf jobVec ps).cons p.1
    | some v =>
      simp only [List.filterMap_cons, hp, Option.map_some', List.map_cons]
      exact (sims_fst_sublist simf jobVec ps).cons₂ p.1

theorem retrieve_fst_nodup {simf : List Qv → List Qv → Qv} {jobVec : List Qv}
    {candEmb : List (Nat × Option (List Qv))} {topK : Nat}
    (h : (candEmb.map Prod.fst).Nodup) :
    ((retrieve simf jobVec candEmb topK).map Prod.fst).Nodup := by
  unfold retrieve
  have h1 : ((candEmb.filterMap
      (fun p => p.2.map (fun v => (p.1, simf jobVec v)))).map Prod.fst).Nodup :=
    List.Nodup.sublist (sims_fst_sublist simf jobVec candEmb) h
  have h2 : ((List.insertionSort retrLE
      (candEmb.filterMap (fun p => p.2.map (fun v => (p.1, simf jobVec v))))).map
        Prod.fst).Nodup :=
    ((List.perm_insertionSort retrLE _).map Prod.fst).nodup_iff.mpr h1
  exact List.Nodup.sublist (List.Sublist.map _ (List.take_sublist _ _)) h2

/-- C2 helper: a pipeline output over retrieval pairs with pairwise-distinct
candidate ids is sorted in the strict ranking order. -/
theorem pipeline_pairwise {tc : TypedConfig} {job : JobProfile}
    {cand : Nat → CandidateProfile} {topN : Nat} {retrieved : List (Nat × Qv)}
    (hnd : (retrieved.map Prod.fst).Nodup) :
    (pipeline tc job cand topN retrieved).Pairwise rankStrict := by
  unfold pipeline
  have hkept : ((retrieved.filter
      (fun p => (evaluateTyped tc job (cand p.1)).2)).map Prod.fst).Nodup :=
    List.Nodup.sublist (List.Sublist.map _ (List.filter_sublist _)) hnd
  have hscored : (((retrieved.filter
      (fun p => (evaluateTyped tc job (cand p.1)).2)).map
        (fun p => buildResult tc job (cand p.1) p.1 p.2)).map
          (fun r => r.candidate_id)).Nodup := by
    rw [List.map_map]
    exact hkept
  have hsorted_pair : (List.insertionSort rankLE
      ((retrieved.filter (fun p => (evaluateTyped tc job (cand p.1)).2)).map
        (fun p => buildResult tc job (cand p.1) p.1 p.2))).Pairwise rankLE :=
    List.sorted_insertionSort rankLE _
  have hsorted_ne : (List.insertionSort rankLE
      ((retrieved.filter (fun p => (evaluateTyped tc job (cand p.1)).2)).map
        (fun p => buildResult tc job (cand p.1) p.1 p.2))).Pairwise
          (fun a b => a.candidate_id ≠ b.candidate_id) :=
    List.pairwise_map.mp
      (((List.perm_insertionSort rankLE _).map _).nodup_iff.mpr hscored)
  have hstrict := (hsorted_pair.and hsorted_ne).imp
    (fun h => rankStrict_of_le_ne h.1 h.2)
  exact assignRanks_pairwise (fun _ _ _ _ h => h)
    (List.Pairwise.sublist (List.take_sublist _ _) hstrict)

/-- C2: the results of a run are listed in a strict total ranking order —
final score non-increasing, ties broken by similarity non-increasing, full
ties by candidate id strictly increasing — so the ranking is deterministic. -/
theorem C2_ranking_invariant {w : World} {jobId now : Nat} {sl : Shortlist}
    (hnd : (w.candEmb.map Prod.fst).Nodup)
    (h : runMatch w jobId now = .ok sl) :
    sl.results.Pairwise rankStrict := by
  obtain ⟨tc, hload, jv, hemb, hsl⟩ := runMatch_ok_inv h
  subst hsl
  cases jv with
  | none => exact pipeline_pairwise (by simp)
  | some v => exact pipeline_pairwise (retrieve_fst_nodup hnd)

/-- C2 witness: the hypotheses hold at the scenario world and run. -/
theorem C2_witness :
    (demoWorld.candEmb.map Prod.fst).Nodup ∧
      demoShortlist.results.Pairwise rankStrict :=
  ⟨by decide, C2_ranking_invariant (by decide) demoRun_eq⟩

/-- C6: the pipeline — rule evaluation, scoring, ranking — is invariant under
any permutation of the retrieved candidate list (with its distinct candidate
ids): shuffling the retrieval order does not change the final shortlist. -/
theorem C6_pipeline_permutation_invariant {tc : TypedConfig} {job : JobProfile}
    {cand : Nat → CandidateProfile} {topN : Nat} {l₁ l₂ : List (Nat × Qv)}
    (hnd : (l₁.map Prod.fst).Nodup) (hperm : l₁.Perm l₂) :
    pipeline tc job cand topN l₂ = pipeline tc job cand topN l₁ := by
  unfold pipeline
  dsimp only
  have hfilter : (l₂.filter (fun p => (evaluateTyped tc job (cand p.1)).2)).Perm
      (l₁.filter (fun p => (evaluateTyped tc job (cand p.1)).2)) :=
    (hperm.filter _).symm
  have hscored := hfilter.map (fun p => buildResult tc job (cand p.1) p.1 p.2)
  suffices hs : List.insertionSort rankLE
      ((l₂.filter (fun p => (evaluateTyped tc job (cand p.1)).2)).map
        (fun p => buildResult tc job (cand p.1) p.1 p.2)) =
      List.insertionSort rankLE
        ((l₁.filter (fun p => (evaluateTyped tc job (cand p.1)).2)).map
          (fun p => buildResult tc job (cand p.1) p.1 p.2)) by
    rw [hs]
  have hl2nd : (l₂.map Prod.fst).Nodup := (hperm.map Prod.fst).nodup_iff.mp hnd
  have hkept : ((l₂.filter (fun p => (evaluateTyped tc job (cand p.1)).2)).map
      Prod.fst).Nodup :=
    List.Nodup.sublist (List.Sublist.map _ (List.filter_sublist _)) hl2nd
  apply eq_of_perm_of_sorted_local
  · exact (List.perm_insertionSort rankLE _).trans
      (hscored.trans (List.perm_insertionSort rankLE _).symm)
  · exact List.sorted_insertionSort rankLE _
  · exact List.sorted_insertionSort rankLE _
  · intro a ha b hb hab hba
    have ha' := (List.perm_insertionSort rankLE _).mem_iff.mp ha
    have hb' := (List.perm_insertionSort rankLE _).mem_iff.mp hb
    obtain ⟨p, hp, rfl⟩ := List.mem_map.mp ha'
    obtain ⟨q, hq, rfl⟩ := List.mem_map.mp hb'
    have hcid : p.1 = q.1 := (rankLE_antisymm_fields hab hba).2.2
    have hpq : p = q := List.inj_on_of_nodup_map hkept hp hq hcid
    rw [hpq]

/-- C6 witness: swapping the first two retrieval entries of the scenario
leaves the pipeline output unchanged. -/
theorem C6_witness :
    pipeline demoTypedConfig demoJob demoWorld.cand 2 demoRetr2 =
      pipeline demoTypedConfig demoJob demoWorld.cand 2 demoRetr1 :=
  C6_pipeline_permutation_invariant (by decide) (by decide)
